import Mathlib

/-!
Verification of the DineSight dining-hall check-in application.

The development shallowly embeds the application's data model
(`app/models.py`), its seed data (`app/db.py`) and the database-facing
core of each request handler (`app/main.py`).  Relational storage is a
record of lists of rows, SQL queries become list filters, `ORDER BY
checked_at DESC` becomes an insertion sort, and the wall clock is an
explicit natural-number timestamp passed to each operation.  The
password hash (`hashlib.sha256`, treated as a black-box one-way
function) is a function parameter of the operations that use it.
-/

namespace DineSight

/-- Model of Python `str.strip()`: drop leading and trailing whitespace. -/
def pyStrip (s : String) : String :=
  ⟨((s.data.dropWhile Char.isWhitespace).reverse.dropWhile Char.isWhitespace).reverse⟩

/-- One decimal digit step of integer parsing. -/
def digitStep (n : Nat) (c : Char) : Nat :=
  n * 10 + (c.toNat - '0'.toNat)

/-- Parse a non-empty all-digit character list as a natural number
(the success case of Python `int(...)`). -/
def parseDigits? (l : List Char) : Option Nat :=
  if l ≠ [] ∧ l.all Char.isDigit then some (l.foldl digitStep 0) else none

/-- Model of Python `int(text)` under `try/except`: an optionally
`-`-signed digit string parses, anything else is a parse failure. -/
def parseInt? : String → Option Int
  | ⟨[]⟩ => none
  | ⟨c :: rest⟩ =>
    if c = '-' then (parseDigits? rest).map (fun n => -(n : Int))
    else (parseDigits? (c :: rest)).map (fun n => (n : Int))

/-- Containment of `needle` as a contiguous run inside `hay`
(model of the SQL `LIKE` pattern behind `column.contains(...)`). -/
def hasSubstrAux (needle : List Char) : List Char → Bool
  | [] => needle.isEmpty
  | c :: rest => needle.isPrefixOf (c :: rest) || hasSubstrAux needle rest

/-- `hasSubstr needle hay` holds when `needle` occurs as a substring of `hay`. -/
def hasSubstr (needle hay : String) : Bool :=
  hasSubstrAux needle.data hay.data

/-- `User` row of `app/models.py`. -/
structure User where
  id : Int
  username : String
  password_hash : String
  joined_at : Nat
deriving DecidableEq

/-- `DiningHall` row of `app/models.py`. -/
structure DiningHall where
  id : Int
  hall_name : String
deriving DecidableEq

/-- `CheckIn` row of `app/models.py`. -/
structure CheckIn where
  id : Int
  user_id : Int
  hall_id : Int
  checked_at : Nat
  expires_at : Nat
deriving DecidableEq

/-- `Follow` row of `app/models.py`. -/
structure Follow where
  id : Int
  follower_id : Int
  following_id : Int
  made_at : Nat
deriving DecidableEq

/-- The relational store: one list of rows per table, plus the
auto-increment counters the store uses to assign fresh primary keys. -/
structure DB where
  users : List User
  halls : List DiningHall
  checkins : List CheckIn
  follows : List Follow
  next_user_id : Int
  next_checkin_id : Int
  next_follow_id : Int
deriving DecidableEq

/-- `timedelta(hours=1)` of `models.CheckIn.expires_at`, in seconds. -/
def CHECKIN_LIFETIME : Nat := 3600

/-- `db_sess.get(User, uid)`: primary-key lookup. -/
def dbGetUser (db : DB) (uid : Int) : Option User :=
  db.users.find? (fun u => u.id == uid)

/-- `db_sess.get(DiningHall, hid)`: primary-key lookup. -/
def dbGetHall (db : DB) (hid : Int) : Option DiningHall :=
  db.halls.find? (fun h => h.id == hid)

/-- `read_user_from_cookie` of `app/main.py`: a missing or falsy cookie is
anonymous, an unparseable value is anonymous, otherwise the user is looked
up by the parsed identifier. -/
def read_user_from_cookie (cookie : Option String) (db : DB) : Option User :=
  match cookie with
  | none => none
  | some v =>
    if v = "" then none
    else
      match parseInt? v with
      | none => none
      | some uid => dbGetUser db uid

/-- The session cookie value set on successful login or signup:
`str(user.id)`. -/
def session_cookie_value (u : User) : String :=
  Int.repr u.id

/-- `login_submit` of `app/main.py`: strip the username, reject blank
fields, look the user up by username and compare password hashes.
Returns the authenticated identity. -/
def login_submit (make_hash : String → String) (db : DB)
    (username password : String) : Option User :=
  let uname := pyStrip username
  if uname = "" ∨ password = "" then none
  else
    match db.users.find? (fun u => u.username == uname) with
    | none => none
    | some user_row =>
      if make_hash password == user_row.password_hash then some user_row
      else none

/-- `signup_submit` of `app/main.py`: strip the username, reject a blank
username or a password shorter than 4 characters, reject a taken
username, otherwise insert the new user (with hashed password) and
return it together with the updated store. -/
def signup_submit (make_hash : String → String) (db : DB)
    (username password : String) (now : Nat) : Option (DB × User) :=
  let uname := pyStrip username
  if uname = "" ∨ password.length < 4 then none
  else if (db.users.find? (fun u => u.username == uname)).isSome then none
  else
    let new_user : User :=
      { id := db.next_user_id, username := uname,
        password_hash := make_hash password, joined_at := now }
    some ({ db with
              users := db.users ++ [new_user]
              next_user_id := db.next_user_id + 1 },
          new_user)

/-- `me.following` navigation: the ids this user follows. -/
def followingIds (db : DB) (uid : Int) : List Int :=
  (db.follows.filter (fun f => f.follower_id == uid)).map
    (fun f => f.following_id)

/-- `ORDER BY checked_at DESC`: newer check-ins first. -/
def checkedAtDesc (a b : CheckIn) : Prop :=
  b.checked_at ≤ a.checked_at

instance : DecidableRel checkedAtDesc :=
  fun a b => Nat.decLe b.checked_at a.checked_at

instance : IsTotal CheckIn checkedAtDesc :=
  ⟨fun a b => Nat.le_total b.checked_at a.checked_at⟩

instance : IsTrans CheckIn checkedAtDesc :=
  ⟨fun _ _ _ hab hbc => Nat.le_trans hbc hab⟩

/-- The feed query of `feed_page` in `app/main.py`: check-ins owned by the
viewer or anyone the viewer follows, not yet expired, newest first. -/
def feed_page (db : DB) (viewer_id : Int) (now : Nat) : List CheckIn :=
  let id_list := viewer_id :: followingIds db viewer_id
  List.insertionSort checkedAtDesc
    (db.checkins.filter
      (fun c => id_list.contains c.user_id && decide (now < c.expires_at)))

/-- The hall query of `dining_page` in `app/main.py`: unexpired check-ins
at one hall, newest first. -/
def active_for_hall (db : DB) (hall_id : Int) (now : Nat) : List CheckIn :=
  List.insertionSort checkedAtDesc
    (db.checkins.filter
      (fun c => c.hall_id == hall_id && decide (now < c.expires_at)))

/-- `dining_page` of `app/main.py`: `none` models the redirect taken when
the hall does not exist. -/
def dining_page (db : DB) (hall_id : Int) (now : Nat) : Option (List CheckIn) :=
  match dbGetHall db hall_id with
  | none => none
  | some _ => some (active_for_hall db hall_id now)

/-- The row inserted by `checkin_post`. -/
def new_checkin_row (db : DB) (me_id hall_id : Int) (now : Nat) : CheckIn :=
  { id := db.next_checkin_id, user_id := me_id, hall_id := hall_id,
    checked_at := now, expires_at := now + CHECKIN_LIFETIME }

/-- `checkin_post` of `app/main.py`: `none` models the redirect taken when
the hall does not exist; otherwise every check-in owned by the caller is
deleted and one fresh row is inserted. -/
def checkin_post (db : DB) (me_id hall_id : Int) (now : Nat) :
    Option (DB × CheckIn) :=
  match dbGetHall db hall_id with
  | none => none
  | some _ =>
    let kept := db.checkins.filter (fun r => !(r.user_id == me_id))
    let new_row := new_checkin_row db me_id hall_id now
    some ({ db with
              checkins := kept ++ [new_row]
              next_checkin_id := db.next_checkin_id + 1 },
          new_row)

/-- `clear_checkin` of `app/main.py`: delete every check-in owned by the
caller. -/
def clear_checkin (db : DB) (me_id : Int) : DB :=
  { db with checkins := db.checkins.filter (fun r => !(r.user_id == me_id)) }

/-- The duplicate-edge probe of `follow_user` in `app/main.py`. -/
def findEdge (db : DB) (a b : Int) : Option Follow :=
  db.follows.find? (fun f => f.follower_id == a && f.following_id == b)

/-- `is_following`: the existence check behind the follow/unfollow UI. -/
def is_following (db : DB) (a b : Int) : Bool :=
  (findEdge db a b).isSome

/-- Number of follow edges from `a` to `b`. -/
def edgeCount (db : DB) (a b : Int) : Nat :=
  (db.follows.filter
    (fun f => f.follower_id == a && f.following_id == b)).length

/-- Number of check-in rows owned by `uid`. -/
def checkinCount (db : DB) (uid : Int) : Nat :=
  (db.checkins.filter (fun c => c.user_id == uid)).length

/-- `follow_user` of `app/main.py`: a self-follow or a duplicate edge is a
silent no-op, otherwise one edge is inserted.  The followee id is never
looked up. -/
def follow_user (db : DB) (me_id user_id : Int) (now : Nat) : DB :=
  if user_id == me_id then db
  else
    match findEdge db me_id user_id with
    | some _ => db
    | none =>
      { db with
        follows := db.follows ++
          [{ id := db.next_follow_id, follower_id := me_id,
             following_id := user_id, made_at := now }],
        next_follow_id := db.next_follow_id + 1 }

/-- `unfollow_user` of `app/main.py`: delete every matching edge. -/
def unfollow_user (db : DB) (me_id user_id : Int) : DB :=
  { db with
      follows := db.follows.filter
        (fun f => !(f.follower_id == me_id && f.following_id == user_id)) }

/-- `people_search` of `app/main.py`: with a blank (stripped) query no
search runs and the result is empty; otherwise every other user whose
username contains the stripped query is returned, unlimited. -/
def people_search (db : DB) (me_id : Int) (q : String) : List User :=
  let q_clean := pyStrip q
  if q_clean = "" then []
  else db.users.filter
    (fun u => !(u.id == me_id) && hasSubstr q_clean u.username)

/-- The four hall rows seeded by `seed_if_empty` in `app/db.py`. -/
def seed_halls : List DiningHall :=
  [⟨1, "Hampshire Dining Commons"⟩, ⟨2, "Berkshire Dining Commons"⟩,
   ⟨3, "Worcester Dining Commons"⟩, ⟨4, "Franklin Dining Commons"⟩]

/-- The seven user rows seeded by `seed_if_empty` in `app/db.py`. -/
def seed_users (make_hash : String → String) (t : Nat) : List User :=
  [⟨1, "Mahad", make_hash "mahad123", t⟩,
   ⟨2, "Sarah", make_hash "sarah123", t⟩,
   ⟨3, "Varisha", make_hash "varisha123", t⟩,
   ⟨4, "Robert", make_hash "robert123", t⟩,
   ⟨5, "Kazi", make_hash "kazi123", t⟩,
   ⟨6, "Humza", make_hash "humza123", t⟩,
   ⟨7, "Wajdan", make_hash "wajdan123", t⟩]

/-- The store right after first boot (`setup_db` in `app/db.py`). -/
def initial_db (make_hash : String → String) (t : Nat) : DB :=
  { users := seed_users make_hash t, halls := seed_halls,
    checkins := [], follows := [],
    next_user_id := 8, next_checkin_id := 1, next_follow_id := 1 }

/-! ### Decimal printing round-trips through integer parsing

`session_cookie_value` prints an identifier with `Int.repr`; session
resolution parses it back with `parseInt?`.  The lemmas below show the
round trip is the identity on non-negative identifiers. -/

/-- The decimal digit list of `n`, most significant first, defined
structurally so that it can be reasoned about by induction. -/
def natDigits (n : Nat) : List Char :=
  if _h : n < 10 then [Nat.digitChar n]
  else natDigits (n / 10) ++ [Nat.digitChar (n % 10)]
decreasing_by exact Nat.div_lt_self (by omega) (by omega)

theorem toDigitsCore_eq_natDigits (fuel : Nat) :
    ∀ n acc, n < fuel → Nat.toDigitsCore 10 fuel n acc = natDigits n ++ acc := by
  induction fuel with
  | zero => intro n acc h; omega
  | succ f ih =>
    intro n acc h
    by_cases h10 : n < 10
    · have hdiv : n / 10 = 0 := Nat.div_eq_of_lt h10
      rw [Nat.toDigitsCore, hdiv, if_pos rfl, natDigits, dif_pos h10,
        Nat.mod_eq_of_lt h10, List.singleton_append]
    · have hdiv : n / 10 ≠ 0 := by omega
      have hnd : natDigits n = natDigits (n / 10) ++ [Nat.digitChar (n % 10)] := by
        rw [natDigits]; exact dif_neg h10
      rw [Nat.toDigitsCore, if_neg hdiv, ih (n / 10) _ (by omega), hnd,
        List.append_assoc, List.singleton_append]

theorem repr_eq_natDigits (n : Nat) : Nat.repr n = ⟨natDigits n⟩ := by
  rw [Nat.repr, Nat.toDigits,
    toDigitsCore_eq_natDigits (n + 1) n [] (Nat.lt_succ_self n),
    List.append_nil, List.asString]

theorem digitChar_facts : ∀ m : Fin 10,
    (Nat.digitChar m.val).isDigit = true ∧
      (Nat.digitChar m.val).toNat - '0'.toNat = m.val ∧
      Nat.digitChar m.val ≠ '-' := by decide

theorem natDigits_mem (n : Nat) :
    ∀ c ∈ natDigits n, c.isDigit = true ∧ c ≠ '-' := by
  induction n using Nat.strong_induction_on with
  | _ n ih =>
    intro c hc
    rw [natDigits] at hc
    split at hc
    · next h =>
      rw [List.mem_singleton] at hc
      subst hc
      exact ⟨(digitChar_facts ⟨n, h⟩).1, (digitChar_facts ⟨n, h⟩).2.2⟩
    · next h =>
      rcases List.mem_append.mp hc with h1 | h2
      · exact ih (n / 10) (Nat.div_lt_self (by omega) (by omega)) c h1
      · rw [List.mem_singleton] at h2
        subst h2
        have hm := digitChar_facts ⟨n % 10, Nat.mod_lt _ (by omega)⟩
        exact ⟨hm.1, hm.2.2⟩

theorem natDigits_ne_nil (n : Nat) : natDigits n ≠ [] := by
  rw [natDigits]; split <;> simp

theorem natDigits_foldl (n : Nat) :
    ∀ a : Nat, (natDigits n).foldl digitStep a =
      a * 10 ^ (natDigits n).length + n := by
  induction n using Nat.strong_induction_on with
  | _ n ih =>
    intro a
    rw [natDigits]
    split
    · next h =>
      have hstep : digitStep a (Nat.digitChar n) = a * 10 + n := by
        rw [digitStep, (digitChar_facts ⟨n, h⟩).2.1]
      simp [hstep]
    · next h =>
      rw [List.foldl_append, ih (n / 10) (Nat.div_lt_self (by omega) (by omega)) a]
      have hstep : ∀ b : Nat, digitStep b (Nat.digitChar (n % 10)) = b * 10 + n % 10 := by
        intro b
        rw [digitStep, (digitChar_facts ⟨n % 10, Nat.mod_lt _ (by omega)⟩).2.1]
      rw [List.foldl_cons, List.foldl_nil, hstep, List.length_append,
        List.length_singleton]
      calc (a * 10 ^ (natDigits (n / 10)).length + n / 10) * 10 + n % 10
          = a * (10 ^ (natDigits (n / 10)).length * 10) +
              (10 * (n / 10) + n % 10) := by ring
        _ = a * 10 ^ ((natDigits (n / 10)).length + 1) + n := by
            rw [Nat.div_add_mod, Nat.pow_succ]

theorem parseDigits?_natDigits (n : Nat) : parseDigits? (natDigits n) = some n := by
  rw [parseDigits?, if_pos, natDigits_foldl n 0, Nat.zero_mul, Nat.zero_add]
  refine ⟨natDigits_ne_nil n, ?_⟩
  rw [List.all_eq_true]
  exact fun c hc => (natDigits_mem n c hc).1

theorem parseInt?_repr_ofNat (n : Nat) :
    parseInt? (Nat.repr n) = some (Int.ofNat n) := by
  obtain ⟨c, cs, hc⟩ : ∃ c cs, natDigits n = c :: cs := by
    cases h : natDigits n with
    | nil => exact absurd h (natDigits_ne_nil n)
    | cons c cs => exact ⟨c, cs, rfl⟩
  have hcne : c ≠ '-' :=
    (natDigits_mem n c (by rw [hc]; exact List.mem_cons_self c cs)).2
  rw [repr_eq_natDigits, hc, parseInt?, if_neg hcne, ← hc,
    parseDigits?_natDigits]
  rfl

theorem parseInt?_repr (i : Int) (h : 0 ≤ i) :
    parseInt? (Int.repr i) = some i := by
  match i, h with
  | Int.ofNat n, _ => exact parseInt?_repr_ofNat n

theorem repr_ne_empty (i : Int) (h : 0 ≤ i) : Int.repr i ≠ "" := by
  match i, h with
  | Int.ofNat n, _ =>
    show Nat.repr n ≠ ""
    rw [repr_eq_natDigits]
    intro hc
    exact natDigits_ne_nil n (congrArg String.data hc)

/-! ### Generic list helpers -/

theorem find?_eq_some_of_uniq {α : Type} (l : List α) (p : α → Bool) (u : α)
    (hu : u ∈ l) (hp : p u = true)
    (huniq : ∀ a ∈ l, p a = true → a = u) : l.find? p = some u := by
  induction l with
  | nil => cases hu
  | cons x xs ih =>
    by_cases hx : p x = true
    · rw [List.find?_cons_of_pos _ hx]
      exact congrArg some (huniq x (List.mem_cons_self x xs) hx)
    · rw [List.find?_cons_of_neg _ (by simpa using hx)]
      refine ih ?_ (fun a ha hpa => huniq a (List.mem_cons_of_mem x ha) hpa)
      rcases List.mem_cons.mp hu with rfl | h
      · exact absurd hp hx
      · exact h

theorem find?_append_of_none {α : Type} (l₁ l₂ : List α) (p : α → Bool)
    (h : ∀ a ∈ l₁, p a = false) :
    (l₁ ++ l₂).find? p = l₂.find? p := by
  induction l₁ with
  | nil => rfl
  | cons x xs ih =>
    rw [List.cons_append,
      List.find?_cons_of_neg _ (by simp [h x (List.mem_cons_self x xs)]),
      ih (fun a ha => h a (List.mem_cons_of_mem x ha))]

/-! ### Operation-level helper lemmas -/

theorem checkin_post_eq (db : DB) (me hid : Int) (now : Nat) (hall : DiningHall)
    (hhall : dbGetHall db hid = some hall) :
    checkin_post db me hid now = some
      ({ db with
          checkins := db.checkins.filter (fun r => !(r.user_id == me)) ++
            [new_checkin_row db me hid now]
          next_checkin_id := db.next_checkin_id + 1 },
        new_checkin_row db me hid now) := by
  rw [checkin_post, hhall]

theorem filter_kept_self (l : List CheckIn) (me : Int) :
    (l.filter (fun r => !(r.user_id == me))).filter
      (fun c => c.user_id == me) = [] := by
  induction l with
  | nil => rfl
  | cons x xs ih =>
    by_cases hx : x.user_id = me
    · simp [List.filter_cons, hx, ih]
    · simp [List.filter_cons, hx, ih]

theorem count_filter_le (l : List CheckIn) (q : CheckIn → Bool) (u : Int) :
    ((l.filter q).filter (fun c => c.user_id == u)).length ≤
      (l.filter (fun c => c.user_id == u)).length :=
  ((List.filter_sublist l).filter _).length_le

theorem checkin_single (db : DB) (me hid : Int) (now : Nat) (hall : DiningHall)
    (hhall : dbGetHall db hid = some hall) :
    ∃ db' row, checkin_post db me hid now = some (db', row) ∧
      row.user_id = me ∧ row.hall_id = hid ∧ row.checked_at = now ∧
      row.expires_at = now + CHECKIN_LIFETIME ∧
      db'.checkins =
        db.checkins.filter (fun r => !(r.user_id == me)) ++ [row] ∧
      db'.checkins.filter (fun c => c.user_id == me) = [row] := by
  refine ⟨_, _, checkin_post_eq db me hid now hall hhall,
    rfl, rfl, rfl, rfl, rfl, ?_⟩
  rw [List.filter_append, filter_kept_self]
  simp [new_checkin_row]

theorem checkin_post_inv (db : DB) (me hid : Int) (now : Nat)
    (db' : DB) (row : CheckIn)
    (h : checkin_post db me hid now = some (db', row)) :
    row = new_checkin_row db me hid now ∧
    db'.checkins =
      db.checkins.filter (fun r => !(r.user_id == me)) ++ [row] := by
  cases hh : dbGetHall db hid with
  | none => rw [checkin_post, hh] at h; cases h
  | some hall =>
    rw [checkin_post_eq db me hid now hall hh] at h
    simp only [Option.some.injEq, Prod.mk.injEq] at h
    obtain ⟨hdb, hrow⟩ := h
    subst hdb hrow
    exact ⟨rfl, rfl⟩

theorem follow_user_checkins (db : DB) (me uid : Int) (now : Nat) :
    (follow_user db me uid now).checkins = db.checkins := by
  rw [follow_user]
  split
  · rfl
  · split <;> rfl

theorem signup_inv (make_hash : String → String) (db : DB)
    (un pw : String) (now : Nat) (db' : DB) (nu : User)
    (h : signup_submit make_hash db un pw now = some (db', nu)) :
    nu = ⟨db.next_user_id, pyStrip un, make_hash pw, now⟩ ∧
    db' = { db with
            users := db.users ++ [nu]
            next_user_id := db.next_user_id + 1 } ∧
    ¬(pyStrip un = "" ∨ pw.length < 4) ∧
    (db.users.find? (fun u => u.username == pyStrip un)).isSome = false := by
  simp only [signup_submit] at h
  by_cases h1 : pyStrip un = "" ∨ pw.length < 4
  · rw [if_pos h1] at h; cases h
  · rw [if_neg h1] at h
    by_cases h2 : (db.users.find? (fun u => u.username == pyStrip un)).isSome = true
    · rw [if_pos h2] at h; cases h
    · rw [if_neg h2] at h
      simp only [Option.some.injEq, Prod.mk.injEq] at h
      obtain ⟨hdb, hnu⟩ := h
      subst hdb
      exact ⟨hnu.symm, by rw [hnu], h1, by simpa using h2⟩

theorem findEdge_none_iff (db : DB) (a b : Int) :
    findEdge db a b = none ↔ edgeCount db a b = 0 := by
  rw [findEdge, List.find?_eq_none, edgeCount, List.length_eq_zero,
    List.filter_eq_nil_iff]

theorem is_following_iff (db : DB) (a b : Int) :
    is_following db a b = true ↔ edgeCount db a b ≠ 0 := by
  rw [is_following, Option.isSome_iff_ne_none, Ne, findEdge_none_iff]

theorem follow_user_self (db : DB) (a : Int) (now : Nat) :
    follow_user db a a now = db := by
  rw [follow_user, if_pos (beq_self_eq_true a)]

theorem follow_user_dup (db : DB) (a b : Int) (now : Nat)
    (h : (findEdge db a b).isSome = true) :
    follow_user db a b now = db := by
  rw [follow_user]
  by_cases hba : (b == a) = true
  · rw [if_pos hba]
  · rw [if_neg hba]
    cases he : findEdge db a b with
    | none => rw [he] at h; cases h
    | some e => rfl

theorem follow_user_insert (db : DB) (a b : Int) (now : Nat)
    (hne : b ≠ a) (hnone : findEdge db a b = none) :
    (follow_user db a b now).follows =
      db.follows ++ [⟨db.next_follow_id, a, b, now⟩] ∧
    edgeCount (follow_user db a b now) a b = 1 ∧
    is_following (follow_user db a b now) a b = true := by
  have hba : ¬((b == a) = true) := by simp [hne]
  have hfl : (follow_user db a b now).follows =
      db.follows ++ [⟨db.next_follow_id, a, b, now⟩] := by
    rw [follow_user, if_neg hba, hnone]
  have hall : ∀ f ∈ db.follows,
      (f.follower_id == a && f.following_id == b) = false := by
    intro f hf
    have := (List.find?_eq_none.mp (by rw [findEdge] at hnone; exact hnone)) f hf
    simpa using this
  have hnil : db.follows.filter
      (fun f => f.follower_id == a && f.following_id == b) = [] :=
    List.filter_eq_nil_iff.mpr (by intro f hf; simp [hall f hf])
  refine ⟨hfl, ?_, ?_⟩
  · rw [edgeCount, hfl, List.filter_append, hnil]
    simp
  · rw [is_following, findEdge, hfl,
      find?_append_of_none _ _ _ hall]
    simp

/-! ### The claims -/

/-- A concrete freshly-booted store used by the witnesses: the seeded
halls and users, with an injective stand-in for the black-box hash. -/
def hashW : String → String := fun s => String.append "#" s

/-- Witness store: the store right after first boot. -/
def dbW : DB := initial_db hashW 0

/-- C1: for an authenticated user and an existing hall, check-in deletes
every check-in row owned by the user (regardless of expiry state),
inserts exactly one new row referencing that hall, and leaves exactly
one check-in row for the user; a second check-in in succession again
leaves exactly one row, referencing the second hall. -/
theorem checkin_replaces (db : DB) (me hid : Int) (now : Nat)
    (hall : DiningHall) (hhall : dbGetHall db hid = some hall) :
    ∃ db' row, checkin_post db me hid now = some (db', row) ∧
      row.user_id = me ∧ row.hall_id = hid ∧
      db'.checkins =
        db.checkins.filter (fun r => !(r.user_id == me)) ++ [row] ∧
      db'.checkins.filter (fun c => c.user_id == me) = [row] ∧
      ∀ hid₂ now₂ hall₂, dbGetHall db' hid₂ = some hall₂ →
        ∃ db₂ row₂, checkin_post db' me hid₂ now₂ = some (db₂, row₂) ∧
          row₂.hall_id = hid₂ ∧
          db₂.checkins.filter (fun c => c.user_id == me) = [row₂] := by
  obtain ⟨db', row, h1, h2, h3, _, _, h6, h7⟩ :=
    checkin_single db me hid now hall hhall
  refine ⟨db', row, h1, h2, h3, h6, h7, ?_⟩
  intro hid₂ now₂ hall₂ hh₂
  obtain ⟨db₂, row₂, g1, _, g3, _, _, _, g7⟩ :=
    checkin_single db' me hid₂ now₂ hall₂ hh₂
  exact ⟨db₂, row₂, g1, g3, g7⟩

/-- C1 witness: checking user 1 in at seeded hall 1, then at hall 2. -/
theorem checkin_replaces_witness :
    ∃ db' row, checkin_post dbW 1 1 100 = some (db', row) ∧
      db'.checkins.filter (fun c => c.user_id == 1) = [row] := by
  obtain ⟨db', row, h1, _, _, _, h5, hrest⟩ :=
    checkin_replaces dbW 1 1 100 ⟨1, "Hampshire Dining Commons"⟩ (by decide)
  exact ⟨db', row, h1, h5⟩

/-- The claimed storage invariant: at most one check-in row per user. -/
def checkinInv (db : DB) : Prop := ∀ uid : Int, checkinCount db uid ≤ 1

/-- C2: at most one check-in row per user exists at any time, and the
invariant is preserved by every store-mutating operation: check-in
deletes all of the user's prior rows before inserting one, clear
deletes all of them, and follow, unfollow and signup leave the
check-in table untouched. -/
theorem checkin_invariant_preserved (db : DB) (hinv : checkinInv db) :
    (∀ me hid now db' row,
      checkin_post db me hid now = some (db', row) → checkinInv db') ∧
    (∀ me, checkinInv (clear_checkin db me)) ∧
    (∀ me uid now, checkinInv (follow_user db me uid now)) ∧
    (∀ me uid, checkinInv (unfollow_user db me uid)) ∧
    (∀ mkh un pw now db' nu,
      signup_submit mkh db un pw now = some (db', nu) → checkinInv db') := by
  refine ⟨?_, ?_, ?_, ?_, ?_⟩
  · intro me hid now db' row h u
    obtain ⟨hrow, hck⟩ := checkin_post_inv db me hid now db' row h
    rw [checkinCount, hck, List.filter_append]
    by_cases hu : u = me
    · subst hu
      rw [filter_kept_self]
      subst hrow
      simp [new_checkin_row]
    · have h2 : [row].filter (fun c => c.user_id == u) = [] := by
        subst hrow
        simp [new_checkin_row, Ne.symm hu]
      rw [h2, List.append_nil]
      exact Nat.le_trans (count_filter_le db.checkins _ u) (hinv u)
  · intro me u
    rw [clear_checkin]
    exact Nat.le_trans (count_filter_le db.checkins _ u) (hinv u)
  · intro me uid now u
    rw [checkinCount, follow_user_checkins]
    exact hinv u
  · intro me uid u
    exact hinv u
  · intro mkh un pw now db' nu h u
    obtain ⟨_, hdb, _, _⟩ := signup_inv mkh db un pw now db' nu h
    rw [hdb]
    exact hinv u

/-- C2 witness: the invariant holds in the seeded store and after a
clear operation on it. -/
theorem checkin_invariant_preserved_witness :
    checkinInv (clear_checkin dbW 1) :=
  (checkin_invariant_preserved dbW (fun _ => Nat.zero_le 1)).2.1 1

/-- C3: the feed for a viewer consists of exactly the stored check-ins
whose owner is the viewer or someone the viewer follows and whose
expiry is strictly in the future, ordered by creation time descending;
the viewer's own active check-in is always included, independent of
the follow graph. -/
theorem feed_characterisation (db : DB) (vid : Int) (now : Nat) :
    List.Perm (feed_page db vid now)
      (db.checkins.filter
        (fun c => (vid :: followingIds db vid).contains c.user_id &&
          decide (now < c.expires_at))) ∧
    (∀ c, c ∈ feed_page db vid now ↔
      (c ∈ db.checkins ∧
        (c.user_id = vid ∨ c.user_id ∈ followingIds db vid) ∧
        now < c.expires_at)) ∧
    List.Sorted checkedAtDesc (feed_page db vid now) ∧
    (∀ c ∈ db.checkins, c.user_id = vid → now < c.expires_at →
      c ∈ feed_page db vid now) := by
  have hmem : ∀ c, c ∈ feed_page db vid now ↔
      (c ∈ db.checkins ∧
        (c.user_id = vid ∨ c.user_id ∈ followingIds db vid) ∧
        now < c.expires_at) := by
    intro c
    rw [feed_page, List.mem_insertionSort, List.mem_filter]
    simp [List.mem_cons]
  refine ⟨List.perm_insertionSort _ _, hmem,
    List.sorted_insertionSort _ _, ?_⟩
  intro c hc hvid hexp
  exact (hmem c).mpr ⟨hc, Or.inl hvid, hexp⟩

/-- C3 witness: with one active own check-in in the seeded store, the
feed of viewer 1 contains it. -/
theorem feed_characterisation_witness :
    (⟨1, 1, 1, 10, 3610⟩ : CheckIn) ∈
      feed_page { dbW with checkins := [⟨1, 1, 1, 10, 3610⟩] } 1 20 :=
  (feed_characterisation { dbW with checkins := [⟨1, 1, 1, 10, 3610⟩] }
      1 20).2.2.2 ⟨1, 1, 1, 10, 3610⟩ (by decide) (by decide) (by decide)

/-- C4: a check-in made at time T expires exactly one hour (3600
seconds) after creation: it is listed by the hall's active query at
T + 59 min and no longer listed at T + 61 min, although the row is
still in storage. -/
theorem checkin_expiry_window (db : DB) (me hid : Int) (now : Nat)
    (hall : DiningHall) (hhall : dbGetHall db hid = some hall) :
    ∃ db' row, checkin_post db me hid now = some (db', row) ∧
      row.checked_at = now ∧
      row.expires_at = row.checked_at + CHECKIN_LIFETIME ∧
      CHECKIN_LIFETIME = 3600 ∧
      row ∈ active_for_hall db' hid (now + 59 * 60) ∧
      row ∉ active_for_hall db' hid (now + 61 * 60) ∧
      row ∈ db'.checkins := by
  obtain ⟨db', row, h1, _, h3, hca, hex, h6, _⟩ :=
    checkin_single db me hid now hall hhall
  have hrowmem : row ∈ db'.checkins := by
    rw [h6]; exact List.mem_append_right _ (List.mem_singleton_self row)
  refine ⟨db', row, h1, hca, by rw [hex, hca], rfl, ?_, ?_, hrowmem⟩
  · rw [active_for_hall, List.mem_insertionSort, List.mem_filter]
    refine ⟨hrowmem, ?_⟩
    have : now + 59 * 60 < row.expires_at := by
      rw [hex, CHECKIN_LIFETIME]; omega
    simp [h3, this]
  · rw [active_for_hall, List.mem_insertionSort, List.mem_filter]
    intro ⟨_, hp⟩
    have : ¬(now + 61 * 60 < row.expires_at) := by
      rw [hex, CHECKIN_LIFETIME]; omega
    simp [this] at hp

/-- C4 witness: user 1 checks in at seeded hall 1 at T = 0. -/
theorem checkin_expiry_window_witness :
    ∃ db' row, checkin_post dbW 1 1 0 = some (db', row) ∧
      row.expires_at = row.checked_at + CHECKIN_LIFETIME := by
  obtain ⟨db', row, h1, _, h3, _, _, _, _⟩ :=
    checkin_expiry_window dbW 1 1 0 ⟨1, "Hampshire Dining Commons"⟩
      (by decide)
  exact ⟨db', row, h1, h3⟩

/-- C5: session resolution returns no user when the cookie is absent or
its value does not parse as an integer, returns no user when no user
row with the parsed identifier exists, and otherwise returns exactly
the user row whose identifier equals the parsed value. -/
theorem session_resolution (db : DB) :
    read_user_from_cookie none db = none ∧
    (∀ v, parseInt? v = none → read_user_from_cookie (some v) db = none) ∧
    (∀ v i, parseInt? v = some i → dbGetUser db i = none →
      read_user_from_cookie (some v) db = none) ∧
    (∀ v i u, parseInt? v = some i → dbGetUser db i = some u →
      read_user_from_cookie (some v) db = some u ∧ u.id = i) := by
  refine ⟨rfl, ?_, ?_, ?_⟩
  · intro v h
    rw [read_user_from_cookie]
    by_cases hv : v = ""
    · rw [if_pos hv]
    · rw [if_neg hv, h]
  · intro v i h hu
    rw [read_user_from_cookie]
    by_cases hv : v = ""
    · rw [if_pos hv]
    · rw [if_neg hv, h]
      exact hu
  · intro v i u h hu
    have hv : v ≠ "" := by
      intro hc
      have h0 : parseInt? "" = none := by decide
      rw [hc, h0] at h
      cases h
    constructor
    · rw [read_user_from_cookie, if_neg hv, h]
      exact hu
    · have := List.find?_some hu
      simpa using this

/-- C5 witness: in the seeded store, an unparseable cookie resolves to
anonymous, a stale id resolves to anonymous, and cookie "1" resolves
to the seeded user with identifier 1. -/
theorem session_resolution_witness :
    read_user_from_cookie (some "abc") dbW = none ∧
    read_user_from_cookie (some "99") dbW = none ∧
    read_user_from_cookie (some "1") dbW =
      some ⟨1, "Mahad", hashW "mahad123", 0⟩ := by
  refine ⟨(session_resolution dbW).2.1 "abc" (by decide),
    (session_resolution dbW).2.2.1 "99" 99 (by decide) (by decide),
    ((session_resolution dbW).2.2.2 "1" 1 ⟨1, "Mahad", hashW "mahad123", 0⟩
      (by decide) (by decide)).1⟩

/-- C6: follow is a silent no-op on a self-follow or an existing edge and
otherwise inserts exactly one edge; following twice in succession leaves
exactly one edge, with is_following true after each call, and a
self-follow leaves zero edges. -/
theorem follow_noop_and_insert (db : DB) (a b : Int) (now now₂ : Nat) :
    (follow_user db a a now = db) ∧
    ((findEdge db a b).isSome = true → follow_user db a b now = db) ∧
    (a ≠ b → findEdge db a b = none →
      (follow_user db a b now).follows =
        db.follows ++ [⟨db.next_follow_id, a, b, now⟩] ∧
      edgeCount (follow_user db a b now) a b = 1) ∧
    (a ≠ b → edgeCount db a b ≤ 1 →
      edgeCount (follow_user (follow_user db a b now) a b now₂) a b = 1 ∧
      is_following (follow_user db a b now) a b = true ∧
      is_following (follow_user (follow_user db a b now) a b now₂) a b
        = true) ∧
    (edgeCount db a a = 0 → edgeCount (follow_user db a a now) a a = 0) := by
  refine ⟨follow_user_self db a now, follow_user_dup db a b now, ?_, ?_, ?_⟩
  · intro hab hnone
    obtain ⟨hfl, hcnt, _⟩ := follow_user_insert db a b now (Ne.symm hab) hnone
    exact ⟨hfl, hcnt⟩
  · intro hab hle
    rcases Nat.lt_or_ge (edgeCount db a b) 1 with h0 | h1
    · have h0 : edgeCount db a b = 0 := by omega
      have hnone : findEdge db a b = none := (findEdge_none_iff db a b).mpr h0
      obtain ⟨_, hcnt, hisf⟩ :=
        follow_user_insert db a b now (Ne.symm hab) hnone
      have hnoop : follow_user (follow_user db a b now) a b now₂ =
          follow_user db a b now := follow_user_dup _ a b now₂ hisf
      rw [hnoop]
      exact ⟨hcnt, hisf, hisf⟩
    · have h1 : edgeCount db a b = 1 := by omega
      have hisf : is_following db a b = true :=
        (is_following_iff db a b).mpr (by omega)
      have hnoop1 : follow_user db a b now = db :=
        follow_user_dup db a b now hisf
      have hnoop2 : follow_user db a b now₂ = db :=
        follow_user_dup db a b now₂ hisf
      rw [hnoop1, hnoop2]
      exact ⟨h1, hisf, hisf⟩
  · intro h0
    rw [follow_user_self db a now]
    exact h0

/-- C6 witness: user 1 follows user 2 twice in the seeded store, and
user 1 self-follows. -/
theorem follow_noop_and_insert_witness :
    edgeCount (follow_user (follow_user dbW 1 2 5) 1 2 6) 1 2 = 1 ∧
    follow_user dbW 1 1 5 = dbW := by
  have h := follow_noop_and_insert dbW 1 2 5 6
  exact ⟨(h.2.2.2.1 (by decide) (by decide)).1, h.1⟩

/-- C7 counterexample: in the seeded store, supplying username " Mahad"
(leading space) together with Mahad's correct password logs in, because
the handler strips the username before the lookup, yet no user whose
exact username is " Mahad" exists — the claimed iff fails here. -/
theorem login_exact_username_counterexample :
    ¬ ((login_submit hashW dbW " Mahad" "mahad123").isSome = true ↔
        ∃ u ∈ dbW.users, u.username = " Mahad" ∧
          hashW "mahad123" = u.password_hash) := by
  decide

/-- C7 (amended): login strips surrounding whitespace from the supplied
username and rejects an empty (stripped) username or empty password
outright; it returns an identity iff the password is non-empty and a
user exists whose username equals exactly the stripped username and
whose stored hash equals the hash of the supplied password; on success
the session cookie is set to that user's identifier, and resolving it
yields the same user. -/
theorem login_characterisation (make_hash : String → String) (db : DB)
    (un pw : String)
    (husers : ∀ u ∈ db.users, ∀ v ∈ db.users, u.username = v.username → u = v)
    (hids : ∀ u ∈ db.users, ∀ v ∈ db.users, u.id = v.id → u = v)
    (hpos : ∀ u ∈ db.users, 0 ≤ u.id) :
    (∀ u, login_submit make_hash db un pw = some u ↔
      (pw ≠ "" ∧ pyStrip un ≠ "" ∧ u ∈ db.users ∧
        u.username = pyStrip un ∧ make_hash pw = u.password_hash)) ∧
    (∀ u, login_submit make_hash db un pw = some u →
      read_user_from_cookie (some (session_cookie_value u)) db = some u) := by
  have fwd : ∀ u, login_submit make_hash db un pw = some u →
      (pw ≠ "" ∧ pyStrip un ≠ "" ∧ u ∈ db.users ∧
        u.username = pyStrip un ∧ make_hash pw = u.password_hash) := by
    intro u h
    simp only [login_submit] at h
    by_cases h1 : pyStrip un = "" ∨ pw = ""
    · rw [if_pos h1] at h; cases h
    · rw [if_neg h1] at h
      push_neg at h1
      cases hf : db.users.find? (fun x => x.username == pyStrip un) with
      | none => rw [hf] at h; cases h
      | some w =>
        rw [hf] at h
        have h' : (if (make_hash pw == w.password_hash) = true then some w
            else none) = some u := h
        by_cases hh : (make_hash pw == w.password_hash) = true
        · rw [if_pos hh] at h'
          injection h' with h'
          subst h'
          exact ⟨h1.2, h1.1, List.mem_of_find?_eq_some hf,
            by simpa using List.find?_some hf, by simpa using hh⟩
        · rw [if_neg hh] at h'; cases h'
  have bwd : ∀ u, (pw ≠ "" ∧ pyStrip un ≠ "" ∧ u ∈ db.users ∧
      u.username = pyStrip un ∧ make_hash pw = u.password_hash) →
      login_submit make_hash db un pw = some u := by
    intro u ⟨hpw, hun, hmem, hname, hhash⟩
    simp only [login_submit]
    rw [if_neg (by push_neg; exact ⟨hun, hpw⟩),
      find?_eq_some_of_uniq db.users _ u hmem (by simpa using hname)
        (fun a ha hpa =>
          husers a ha u hmem (by simp at hpa; rw [hname]; exact hpa))]
    show (if (make_hash pw == u.password_hash) = true then some u
        else none) = some u
    rw [if_pos (by simpa using hhash)]
  refine ⟨fun u => ⟨fwd u, bwd u⟩, ?_⟩
  intro u h
  obtain ⟨_, _, hmem, _, _⟩ := fwd u h
  have h0 : 0 ≤ u.id := hpos u hmem
  rw [session_cookie_value, read_user_from_cookie,
    if_neg (repr_ne_empty u.id h0), parseInt?_repr u.id h0]
  show dbGetUser db u.id = some u
  rw [dbGetUser]
  exact find?_eq_some_of_uniq db.users _ u hmem (by simp)
    (fun a ha hpa => hids a ha u hmem (by simpa using hpa))

/-- C7 witness: the seeded user Mahad logs in with the correct password
and the session cookie resolves back to the same user. -/
theorem login_characterisation_witness :
    login_submit hashW dbW "Mahad" "mahad123"
      = some ⟨1, "Mahad", hashW "mahad123", 0⟩ ∧
    read_user_from_cookie
        (some (session_cookie_value ⟨1, "Mahad", hashW "mahad123", 0⟩)) dbW
      = some ⟨1, "Mahad", hashW "mahad123", 0⟩ := by
  have h := login_characterisation hashW dbW "Mahad" "mahad123"
    (by decide) (by decide) (by decide)
  have hl := (h.1 ⟨1, "Mahad", hashW "mahad123", 0⟩).mpr
    ⟨by decide, by decide, by decide, by decide, by decide⟩
  exact ⟨hl, h.2 _ hl⟩

/-- C8: signup fails, mutating nothing, exactly when the stripped
username is empty, the password is shorter than 4 characters, or the
username is taken; otherwise it appends one new user storing the hash
of the password, touches no other table, and the session cookie set
for the new user resolves to it. -/
theorem signup_characterisation (make_hash : String → String) (db : DB)
    (un pw : String) (now : Nat) :
    (signup_submit make_hash db un pw now = none ↔
      (pyStrip un = "" ∨ pw.length < 4 ∨
        ∃ u ∈ db.users, u.username = pyStrip un)) ∧
    (∀ db' nu, signup_submit make_hash db un pw now = some (db', nu) →
      nu.username = pyStrip un ∧ nu.password_hash = make_hash pw ∧
      nu.id = db.next_user_id ∧ db'.users = db.users ++ [nu] ∧
      db'.checkins = db.checkins ∧ db'.follows = db.follows) ∧
    (∀ db' nu, signup_submit make_hash db un pw now = some (db', nu) →
      (∀ u ∈ db.users, u.id ≠ db.next_user_id) → 0 ≤ db.next_user_id →
      read_user_from_cookie (some (session_cookie_value nu)) db'
        = some nu) := by
  have hex : (db.users.find? (fun u => u.username == pyStrip un)).isSome
      = true ↔ ∃ u ∈ db.users, u.username = pyStrip un := by
    constructor
    · intro h2
      obtain ⟨w, hw⟩ := Option.isSome_iff_exists.mp h2
      exact ⟨w, List.mem_of_find?_eq_some hw,
        by simpa using List.find?_some hw⟩
    · intro ⟨u, hu, hname⟩
      cases hf : db.users.find? (fun x => x.username == pyStrip un) with
      | some w => rfl
      | none =>
        have := List.find?_eq_none.mp hf u hu
        simp [hname] at this
  refine ⟨?_, ?_, ?_⟩
  · simp only [signup_submit]
    by_cases h1 : pyStrip un = "" ∨ pw.length < 4
    · rw [if_pos h1]
      constructor
      · intro _
        rcases h1 with h | h
        · exact Or.inl h
        · exact Or.inr (Or.inl h)
      · intro _; rfl
    · rw [if_neg h1]
      push_neg at h1
      by_cases h2 : (db.users.find?
          (fun u => u.username == pyStrip un)).isSome = true
      · rw [if_pos h2]
        exact ⟨fun _ => Or.inr (Or.inr (hex.mp h2)), fun _ => rfl⟩
      · rw [if_neg h2]
        constructor
        · intro hc; cases hc
        · intro hc
          rcases hc with h | h | h
          · exact absurd h h1.1
          · exact absurd h (by omega)
          · exact absurd (hex.mpr h) h2
  · intro db' nu h
    obtain ⟨hnu, hdb, _, _⟩ := signup_inv make_hash db un pw now db' nu h
    exact ⟨by rw [hnu], by rw [hnu], by rw [hnu], by rw [hdb],
      by rw [hdb], by rw [hdb]⟩
  · intro db' nu h hfresh hpos
    obtain ⟨hnu, hdb, _, _⟩ := signup_inv make_hash db un pw now db' nu h
    have hid : nu.id = db.next_user_id := by rw [hnu]
    have h0 : 0 ≤ nu.id := by rw [hid]; exact hpos
    have husers' : db'.users = db.users ++ [nu] := by rw [hdb]
    rw [session_cookie_value, read_user_from_cookie,
      if_neg (repr_ne_empty nu.id h0), parseInt?_repr nu.id h0]
    show dbGetUser db' nu.id = some nu
    rw [dbGetUser, husers',
      find?_append_of_none db.users [nu] _
        (by intro a ha; rw [hid]; simp [hfresh a ha]),
      List.find?_cons_of_pos _ (by simp)]

/-- C8 witness: in the seeded store, username "ab" with the 3-character
password "xyz" fails validation, while the 4-character password "xyzz"
succeeds. -/
theorem signup_characterisation_witness :
    signup_submit hashW dbW "ab" "xyz" 5 = none ∧
    (signup_submit hashW dbW "ab" "xyzz" 5).isSome = true := by
  refine ⟨(signup_characterisation hashW dbW "ab" "xyz" 5).1.mpr
    (Or.inr (Or.inl (by decide))), ?_⟩
  rcases hs : signup_submit hashW dbW "ab" "xyzz" 5 with _ | p
  · rcases (signup_characterisation hashW dbW "ab" "xyzz" 5).1.mp hs
      with h | h | h
    · exact absurd h (by decide)
    · exact absurd h (by decide)
    · revert h; decide
  · rfl

/-- C9 counterexample: with the empty query string every username
contains the query as a substring, yet the handler returns the empty
list without searching, so the seeded user 2 is missing from the
claimed result. -/
theorem people_search_empty_query_counterexample :
    ¬ ((⟨2, "Sarah", hashW "sarah123", 0⟩ : User) ∈ people_search dbW 1 ""
        ↔ ((⟨2, "Sarah", hashW "sarah123", 0⟩ : User) ∈ dbW.users ∧
            (2 : Int) ≠ 1 ∧ hasSubstr "" "Sarah" = true)) := by
  decide

/-- C9 (amended): for a query whose stripped form is non-empty, the
search returns exactly the users other than the viewer whose username
contains the stripped query as a substring, with no result limit; for
an empty or whitespace-only query it returns the empty list. -/
theorem people_search_characterisation (db : DB) (me : Int) (q : String) :
    ∀ u, u ∈ people_search db me q ↔
      (pyStrip q ≠ "" ∧ u ∈ db.users ∧ u.id ≠ me ∧
        hasSubstr (pyStrip q) u.username = true) := by
  intro u
  simp only [people_search]
  by_cases hq : pyStrip q = ""
  · rw [if_pos hq]
    simp [hq]
  · rw [if_neg hq, List.mem_filter]
    simp [hq]

/-- C9 witness: searching "ara" as user 1 in the seeded store finds
Sarah. -/
theorem people_search_characterisation_witness :
    (⟨2, "Sarah", hashW "sarah123", 0⟩ : User) ∈
      people_search dbW 1 "ara" :=
  (people_search_characterisation dbW 1 "ara"
    ⟨2, "Sarah", hashW "sarah123", 0⟩).mpr (by decide)

/-- C10: for a target identifier different from the caller's with no
existing edge, follow inserts the edge and completes even when no user
row with that identifier exists — the followee's existence is never
checked. -/
theorem follow_no_target_check (db : DB) (me uid : Int) (now : Nat)
    (hne : uid ≠ me) (hnoedge : findEdge db me uid = none)
    (hnouser : dbGetUser db uid = none) :
    (follow_user db me uid now).follows =
      db.follows ++ [⟨db.next_follow_id, me, uid, now⟩] ∧
    edgeCount (follow_user db me uid now) me uid = 1 ∧
    is_following (follow_user db me uid now) me uid = true :=
  follow_user_insert db me uid now hne hnoedge

/-- C10 witness: in the seeded store user 1 follows the nonexistent
identifier 99 and the edge is inserted. -/
theorem follow_no_target_check_witness :
    edgeCount (follow_user dbW 1 99 3) 1 99 = 1 :=
  (follow_no_target_check dbW 1 99 3 (by decide) (by decide)
    (by decide)).2.1

end DineSight
